import Mathlib

/-
Verification development for the StarBrickVII engine host
(src/script.js and src/engine-worker.js).

The host loads WASM codec plugins into dedicated workers, checks a fixed
export table, reads metadata and capability flags, registers engines in a
map keyed by engine ID, and drives encode/decode traffic through a
request-ID-correlated message protocol, either single-shot (callEngine) or
chunked (processFile).  The definitions below are a shallow embedding of
those code paths; byte buffers are lists of naturals, linear-memory
pointers are naturals (0 = allocation failure), and the allocator and
plugin calls are oracles supplied as explicit arguments.
-/

namespace StarBrick

/-- Byte buffers (message payloads, linear-memory contents). -/
abbrev Bytes := List Nat

/-- Presence of each export that the worker load branch may consult
(engine-worker.js lines 16-17 test truthiness of exports[r], lines 32/40
test sb_get_name / sb_get_desc, line 72 looks up sb_encode / sb_decode). -/
structure Exports where
  sb_encode : Bool
  sb_alloc : Bool
  sb_free : Bool
  sb_get_id : Bool
  sb_is_binary_safe : Bool
  sb_is_self_inverse : Bool
  sb_is_reversible : Bool
  memory : Bool
  sb_get_name : Bool
  sb_get_desc : Bool
  sb_decode : Bool
deriving DecidableEq

/-- Lookup of an export by name, mirroring the JS property access
exports[r]; names outside the table are absent. -/
def hasExport (ex : Exports) : String → Bool
  | "sb_encode" => ex.sb_encode
  | "sb_alloc" => ex.sb_alloc
  | "sb_free" => ex.sb_free
  | "sb_get_id" => ex.sb_get_id
  | "sb_is_binary_safe" => ex.sb_is_binary_safe
  | "sb_is_self_inverse" => ex.sb_is_self_inverse
  | "sb_is_reversible" => ex.sb_is_reversible
  | "memory" => ex.memory
  | "sb_get_name" => ex.sb_get_name
  | "sb_get_desc" => ex.sb_get_desc
  | "sb_decode" => ex.sb_decode
  | _ => false

/-- The required list of engine-worker.js line 16, in source order.  Note
that sb_decode is not on it. -/
def requiredList : List String :=
  ["sb_encode", "sb_alloc", "sb_free", "sb_get_id", "sb_is_binary_safe",
   "sb_is_self_inverse", "sb_is_reversible", "memory"]

/-- The loop of engine-worker.js line 17 throws on the first required
export that is absent; this returns that name, or none when all are
present. -/
def missingExport (ex : Exports) : Option String :=
  requiredList.find? (fun r => !(hasExport ex r))

/-- A plugin module as the worker sees it: which exports exist, the i32
values returned by the three capability-flag exports, the strings served
by the metadata exports, and the byte transforms computed by sb_encode and
sb_decode. -/
structure Plugin where
  exports : Exports
  retBinarySafe : Int
  retSelfInverse : Int
  retReversible : Int
  idStr : String
  nameStr : String
  descStr : String
  encodeFn : Bytes → Bytes
  decodeFn : Bytes → Bytes

/-- The engineInfo record built at engine-worker.js line 51 and delivered
in the loaded message. -/
structure EngineInfo where
  id : String
  name : String
  desc : String
  binarySafe : Bool
  selfInverse : Bool
  reversible : Bool
deriving DecidableEq

/-- Steps of the worker load branch after instantiation, in source order:
the required-export check (line 17), then the marshaling reads of id /
name / desc (lines 26-45), then the capability-flag calls (lines 47-49). -/
inductive LoadAct
  | checkExports
  | readIdStr
  | readNameStr
  | readDescStr
  | readFlags
deriving DecidableEq

/-- The load branch of engine-worker.js (lines 7-54): check the required
exports, throwing Missing export: r at the first absent one; otherwise
read the id string, the name string when sb_get_name exists (else the id),
the description when sb_get_desc exists (else empty), and take each
capability flag as the strict comparison of the export result with 1.
Returns the outcome together with the list of steps that ran. -/
def workerLoad (p : Plugin) : Except String EngineInfo × List LoadAct :=
  match missingExport p.exports with
  | some r => (.error ("Missing export: " ++ r), [LoadAct.checkExports])
  | none =>
      let name := if p.exports.sb_get_name then p.nameStr else p.idStr
      let desc := if p.exports.sb_get_desc then p.descStr else ""
      let info : EngineInfo :=
        { id := p.idStr, name := name, desc := desc,
          binarySafe := p.retBinarySafe == 1,
          selfInverse := p.retSelfInverse == 1,
          reversible := p.retReversible == 1 }
      (.ok info,
       [LoadAct.checkExports, LoadAct.readIdStr]
         ++ (if p.exports.sb_get_name then [LoadAct.readNameStr] else [])
         ++ (if p.exports.sb_get_desc then [LoadAct.readDescStr] else [])
         ++ [LoadAct.readFlags])

/-- Operation kind of a host request (message type encode or decode). -/
inductive OpTy
  | encode
  | decode
deriving DecidableEq

/-- The transform the worker invokes for an operation: sb_encode for
encode, sb_decode for decode (engine-worker.js line 57). -/
def engineFn (p : Plugin) : OpTy → (Bytes → Bytes)
  | OpTy.encode => p.encodeFn
  | OpTy.decode => p.decodeFn

/-- Oracle for one encode/decode call: the pointers returned by the two
sb_alloc calls (0 means the allocator failed), the pointer returned by the
transform export, and whether that export traps instead of returning. -/
structure AllocOracle where
  a1 : Nat
  a2 : Nat
  outPtr : Nat
  callFault : Bool

/-- ABI-level events of one worker operation: an sb_alloc call with its
requested size and returned pointer, an sb_free call with its pointer and
size arguments, and the invocation of the transform export. -/
inductive AbiEv
  | allocCall (size : Nat) (ret : Nat)
  | freeCall (ptr : Nat) (size : Nat)
  | exportCall
deriving DecidableEq

/-- Messages the worker posts back to the host (engine-worker.js lines
76, 79, 87), tagged later with the request id. -/
inductive OutMsg
  | chunkMsg (payload : Bytes)
  | resultMsg
  | errorMsg (e : String)
deriving DecidableEq

/-- Stand-in for the TypeError text raised when the decode branch looks up
an sb_decode export that the module does not have (engine-worker.js line
72 calls wasmExports[fnName] with fnName sb_decode). -/
def decodeMissingMsg : String := "sb_decode is not a function"

/-- Stand-in for the message of an exception raised inside the transform
export itself. -/
def engineTrapMsg : String := "engine trap"

/-- The encode/decode branch of engine-worker.js (lines 55-88): allocate
the input buffer (throwing sb_alloc failed on a zero pointer, with nothing
yet to free); allocate the 4-byte out-length cell (on a zero pointer, free
the input buffer, then throw); call the transform inside try/finally, so
the input buffer and the length cell are freed whether the call returns or
throws; on return, read the output length from the cell and post a chunk
message exactly when both the returned pointer and the length are nonzero,
then post result when isLast.  Exceptions reach the outer catch, which
posts an error message after the finally block has run.  Returns the
ABI-event trace and the posted messages. -/
def workerOp (p : Plugin) (ty : OpTy) (chunk : Bytes) (isLast : Bool)
    (ob : AllocOracle) : List AbiEv × List OutMsg :=
  let len := chunk.length
  if ob.a1 = 0 then
    ([AbiEv.allocCall len 0], [OutMsg.errorMsg "sb_alloc failed"])
  else if ob.a2 = 0 then
    ([AbiEv.allocCall len ob.a1, AbiEv.allocCall 4 0,
      AbiEv.freeCall ob.a1 len],
     [OutMsg.errorMsg "sb_alloc for outLenPtr failed"])
  else if ty = OpTy.decode ∧ p.exports.sb_decode = false then
    ([AbiEv.allocCall len ob.a1, AbiEv.allocCall 4 ob.a2,
      AbiEv.freeCall ob.a1 len, AbiEv.freeCall ob.a2 4],
     [OutMsg.errorMsg decodeMissingMsg])
  else if ob.callFault then
    ([AbiEv.allocCall len ob.a1, AbiEv.allocCall 4 ob.a2, AbiEv.exportCall,
      AbiEv.freeCall ob.a1 len, AbiEv.freeCall ob.a2 4],
     [OutMsg.errorMsg engineTrapMsg])
  else
    let outBytes := engineFn p ty chunk
    ([AbiEv.allocCall len ob.a1, AbiEv.allocCall 4 ob.a2, AbiEv.exportCall,
      AbiEv.freeCall ob.a1 len, AbiEv.freeCall ob.a2 4],
     (if ob.outPtr ≠ 0 ∧ outBytes.length ≠ 0
      then [OutMsg.chunkMsg outBytes] else [])
       ++ (if isLast then [OutMsg.resultMsg] else []))

/-- Pointer/size pairs of the successful allocations in an ABI trace. -/
def allocatedPairs (evs : List AbiEv) : List (Nat × Nat) :=
  evs.filterMap (fun e =>
    match e with
    | AbiEv.allocCall s r => if r = 0 then none else some (r, s)
    | _ => none)

/-- Pointer/size pairs passed to sb_free in an ABI trace. -/
def freedPairs (evs : List AbiEv) : List (Nat × Nat) :=
  evs.filterMap (fun e =>
    match e with
    | AbiEv.freeCall ptr s => some (ptr, s)
    | _ => none)

/-- A registry entry as stored in S.engines (script.js lines 194-203),
with the worker handle modelled as a numeric reference. -/
structure EngineRec where
  name : String
  desc : String
  binarySafe : Bool
  selfInverse : Bool
  reversible : Bool
  isPreset : Bool
  workerRef : Nat
deriving DecidableEq

/-- The S.engines JS Map: insertion-ordered association list from engine
ID to entry. -/
abbrev Registry := List (String × EngineRec)

/-- JS Map.set: replace the value in place when the key exists (keeping
its position), otherwise append the new binding. -/
def mapSet (m : Registry) (k : String) (v : EngineRec) : Registry :=
  if (m.lookup k).isSome then
    m.map (fun kv => if kv.1 = k then (k, v) else kv)
  else
    m ++ [(k, v)]

/-- Host-side actions of loadWasmEngine (script.js lines 171-213), in
order: spawn the worker and post the load message (lines 172, 186), run
the validateEngine self-test (script.js line 415; this action exists in
the vocabulary so that its absence from the emitted traces is a statement
about the code, which contains no call to validateEngine), print a
warning, terminate a worker, and install the engine into S.engines. -/
inductive HostAct
  | createWorker
  | postLoadMsg
  | runValidate
  | printWarn (s : String)
  | terminateWorker (w : Nat)
  | installEngine (id : String)
deriving DecidableEq

/-- Builds the engine object of script.js lines 194-203 from the loaded
payload. -/
def mkEngineRec (info : EngineInfo) (isPreset : Bool) (wref : Nat) :
    EngineRec :=
  { name := info.name, desc := info.desc, binarySafe := info.binarySafe,
    selfInverse := info.selfInverse, reversible := info.reversible,
    isPreset := isPreset, workerRef := wref }

/-- loadWasmEngine (script.js lines 190-213): create a worker and post the
load request (createWorkerForEngine); on a worker error the promise
rejects and the catch returns the failure with the registry untouched; on
success, when S.engines already has the id, print the Overwritten warning
and terminate the old entry's worker, then install the new engine with
Map.set.  wref is the handle of the freshly created worker.  Returns the
outcome, the new registry, and the host action trace. -/
def loadWasmEngine (reg : Registry) (p : Plugin) (isPreset : Bool)
    (wref : Nat) : Except String String × Registry × List HostAct :=
  match (workerLoad p).1 with
  | .error e => (.error e, reg, [HostAct.createWorker, HostAct.postLoadMsg])
  | .ok info =>
      match reg.lookup info.id with
      | some old =>
          (.ok info.id, mapSet reg info.id (mkEngineRec info isPreset wref),
           [HostAct.createWorker, HostAct.postLoadMsg,
            HostAct.printWarn ("Overwritten: " ++ info.id),
            HostAct.terminateWorker old.workerRef,
            HostAct.installEngine info.id])
      | none =>
          (.ok info.id, mapSet reg info.id (mkEngineRec info isPreset wref),
           [HostAct.createWorker, HostAct.postLoadMsg,
            HostAct.installEngine info.id])

/-- Host state relevant to request correlation: the registry and the
shared id counter S.nextRequestId (script.js lines 41, 54). -/
structure HostState where
  engines : Registry
  nextRequestId : Nat

/-- A message the host posts to an engine worker. -/
inductive PostedMsg
  | loadMsg (rid : Nat)
  | opMsg (rid : Nat) (ty : OpTy) (chunk : Bytes) (isLast : Bool)
deriving DecidableEq

/-- callEngine (script.js lines 226-254): look up the engine; when absent,
reject with Engine not found before drawing a request id or posting
anything; otherwise draw a fresh id from the shared counter and post the
whole input as a single chunk tagged isLast.  Returns the issued request
id or the error, the updated state, and the posted messages. -/
def callEngine (st : HostState) (engineId : String) (ty : OpTy)
    (input : Bytes) : Except String Nat × HostState × List PostedMsg :=
  match st.engines.lookup engineId with
  | none => (.error "Engine not found", st, [])
  | some _ =>
      (.ok st.nextRequestId,
       { st with nextRequestId := st.nextRequestId + 1 },
       [PostedMsg.opMsg st.nextRequestId ty input true])

/-- The fixed chunk size of processFile (script.js line 258). -/
def CHUNK_SIZE : Nat := 65536

/-- Fuel-driven splitter behind chunkSeq; the fuel is at least the list
length at every call site, so the zero-fuel branch is never taken there. -/
def chunkSeqAux : Nat → Nat → Bytes → List (Bytes × Bool)
  | 0, _, _ => []
  | _, _, [] => []
  | fuel + 1, sz, a :: t =>
      ((a :: t).take sz, decide ((a :: t).length ≤ sz))
        :: chunkSeqAux fuel sz (t.drop (sz - 1))

/-- The chunk sequence of processFile (script.js lines 264-307): slices of
size sz in file order, each paired with its isLast flag, which the code
computes as offset + sz being at least the file size, i.e. the remaining
suffix fitting into one chunk.  Recursing on List.drop (sz - 1) of the
tail is the same suffix as List.drop sz of the whole list. -/
def chunkSeq (sz : Nat) (file : Bytes) : List (Bytes × Bool) :=
  chunkSeqAux file.length sz file

/-- The response handler of callEngine / processFile (script.js lines
232-249 and 276-293) over the stream of worker messages for one
operation: chunk payloads are appended to the accumulated output in
arrival order; the first result message resolves with the concatenation;
the first error message rejects.  none means the promise never settles. -/
def settle : List OutMsg → Bytes → Option (Except String Bytes)
  | [], _ => none
  | OutMsg.chunkMsg b :: t, acc => settle t (acc ++ b)
  | OutMsg.resultMsg :: _, acc => some (.ok acc)
  | OutMsg.errorMsg e :: _, _ => some (.error e)

/-- Outcome of a single-shot callEngine round trip: the worker runs the
whole input as one chunk tagged isLast, and the handler settles on its
messages. -/
def singleShotResult (p : Plugin) (ob : AllocOracle) (ty : OpTy)
    (input : Bytes) : Option (Except String Bytes) :=
  settle (workerOp p ty input true ob).2 []

/-- The worker message stream of a chunked processFile run: the worker
serves the posted chunks in FIFO order, so its messages are the per-chunk
responses concatenated in chunk order. -/
def pipelineMsgs (p : Plugin) (ob : AllocOracle) (ty : OpTy) (sz : Nat)
    (file : Bytes) : List OutMsg :=
  ((chunkSeq sz file).map (fun cl => (workerOp p ty cl.1 cl.2 ob).2)).flatten

/-- Outcome of a chunked processFile run: the shared resultChunks
accumulator collects every chunk payload across the whole operation in
arrival order, and the operation settles on the first terminal message. -/
def pipelineResult (p : Plugin) (ob : AllocOracle) (ty : OpTy) (sz : Nat)
    (file : Bytes) : Option (Except String Bytes) :=
  settle (pipelineMsgs p ob ty sz file) []

/-- Events of a chunked run as seen on the host timeline: the host posts a
chunk request, or a worker message with its request id arrives. -/
inductive SysEv
  | post (rid : Nat) (isLast : Bool)
  | chunkOut (rid : Nat) (payload : Bytes)
  | resultOut (rid : Nat)
  | errorOut (rid : Nat) (e : String)
deriving DecidableEq

/-- Tags a worker message with its request id as a host-timeline event. -/
def msgToEv (rid : Nat) : OutMsg → SysEv
  | OutMsg.chunkMsg b => SysEv.chunkOut rid b
  | OutMsg.resultMsg => SysEv.resultOut rid
  | OutMsg.errorMsg e => SysEv.errorOut rid e

/-- The chunk sequence paired with the request ids processFile draws for
it, starting at rid0: the loop draws one fresh id per chunk in order
(script.js line 275). -/
def ridChunkSeq (sz rid0 : Nat) (file : Bytes) :
    List (Nat × Bytes × Bool) :=
  (List.range' rid0 (chunkSeq sz file).length).zip (chunkSeq sz file)
    |>.map (fun rc => (rc.1, rc.2.1, rc.2.2))

/-- One admissible host timeline of processFile: every reader onload fires
before the worker dequeues its first request.  This schedule is reachable
because the onload handler (script.js lines 273-308) posts the chunk and
immediately starts the next read without consulting any response state,
while the worker runs concurrently and may dequeue arbitrarily late; the
worker then serves the queued requests in FIFO order. -/
def readerFirstTrace (p : Plugin) (ob : AllocOracle) (ty : OpTy)
    (sz rid0 : Nat) (file : Bytes) : List SysEv :=
  (ridChunkSeq sz rid0 file).map (fun rc => SysEv.post rc.1 rc.2.2)
    ++ ((ridChunkSeq sz rid0 file).map (fun rc =>
          (workerOp p ty rc.2.1 rc.2.2 ob).2.map (msgToEv rc.1))).flatten

/-- Whether a host-timeline event is the terminal (result or error) of the
request with the given id. -/
def terminalFor (rid : Nat) : SysEv → Bool
  | SysEv.resultOut r => r == rid
  | SysEv.errorOut r _ => r == rid
  | _ => false

/-- Scanner for the claimed discipline: between any two consecutive post
events, a terminal for the earlier post's request id must arrive.  The
state is the id of the last post whose terminal is still outstanding. -/
def waitsAux : Option Nat → List SysEv → Bool
  | _, [] => true
  | pending, SysEv.post r _ :: t =>
      match pending with
      | some _ => false
      | none => waitsAux (some r) t
  | pending, SysEv.resultOut r :: t =>
      waitsAux (if pending = some r then none else pending) t
  | pending, SysEv.errorOut r _ :: t =>
      waitsAux (if pending = some r then none else pending) t
  | pending, SysEv.chunkOut _ _ :: t => waitsAux pending t

/-- Holds of a host timeline exactly when every input chunk but the last
is fully answered (terminated by a result or error for its request id)
before the next chunk is posted. -/
def hostWaitsForTerminals (tr : List SysEv) : Bool :=
  waitsAux none tr

/-- Whether a worker message is a terminal of the response sequence. -/
def isTerminalMsg : OutMsg → Bool
  | OutMsg.resultMsg => true
  | OutMsg.errorMsg _ => true
  | OutMsg.chunkMsg _ => false

/-- Host operations that may draw request ids from S.nextRequestId: an
engine load (script.js line 174), a single-shot call (line 230), and a
chunked file operation (line 275, one id per chunk). -/
inductive HostOp
  | loadOp (p : Plugin) (isPreset : Bool) (wref : Nat)
  | callOp (engineId : String)
  | fileOp (engineId : String) (file : Bytes)

/-- The request ids one operation draws, with the updated host state:
createWorkerForEngine always draws one id, and the load may update the
registry; callEngine and processFile reject before drawing when the
engine id is unregistered; processFile draws one id per chunk of its
64 KiB split, in loop order. -/
def opIssuedIds (st : HostState) : HostOp → List Nat × HostState
  | HostOp.loadOp p isPreset wref =>
      ([st.nextRequestId],
       { engines := (loadWasmEngine st.engines p isPreset wref).2.1,
         nextRequestId := st.nextRequestId + 1 })
  | HostOp.callOp engineId =>
      match st.engines.lookup engineId with
      | none => ([], st)
      | some _ =>
          ([st.nextRequestId],
           { st with nextRequestId := st.nextRequestId + 1 })
  | HostOp.fileOp engineId file =>
      match st.engines.lookup engineId with
      | none => ([], st)
      | some _ =>
          let k := (chunkSeq CHUNK_SIZE file).length
          (List.range' st.nextRequestId k,
           { st with nextRequestId := st.nextRequestId + k })

/-- All request ids issued by a sequence of host operations, in issue
order. -/
def runOps : HostState → List HostOp → List Nat
  | _, [] => []
  | st, op :: t =>
      let r := opIssuedIds st op
      r.1 ++ runOps r.2 t

/-- An export table with every export present. -/
def allExports : Exports :=
  { sb_encode := true, sb_alloc := true, sb_free := true,
    sb_get_id := true, sb_is_binary_safe := true,
    sb_is_self_inverse := true, sb_is_reversible := true,
    memory := true, sb_get_name := true, sb_get_desc := true,
    sb_decode := true }

/-- A well-behaved identity engine used as a concrete test module. -/
def idEngine : Plugin :=
  { exports := allExports, retBinarySafe := 1, retSelfInverse := 0,
    retReversible := 1, idStr := "ident", nameStr := "Identity",
    descStr := "copies bytes", encodeFn := fun b => b,
    decodeFn := fun b => b }

/-- An allocator oracle whose calls all succeed and whose transform
returns normally with a nonzero output pointer. -/
def obHappy : AllocOracle :=
  { a1 := 16, a2 := 8, outPtr := 32, callFault := false }

/-- A module whose capability-flag export returns 2 rather than 1. -/
def flag2Plugin : Plugin :=
  { exports := allExports, retBinarySafe := 2, retSelfInverse := 1,
    retReversible := 0, idStr := "f2", nameStr := "F2", descStr := "",
    encodeFn := fun b => b, decodeFn := fun b => b }

/-- The descriptor the worker builds for flag2Plugin. -/
def flag2Info : EngineInfo :=
  { id := "f2", name := "F2", desc := "", binarySafe := false,
    selfInverse := true, reversible := false }

/-- A module missing the sb_encode export. -/
def pNoEnc : Plugin :=
  { exports := { allExports with sb_encode := false },
    retBinarySafe := 1, retSelfInverse := 0, retReversible := 0,
    idStr := "broken", nameStr := "broken", descStr := "",
    encodeFn := fun b => b, decodeFn := fun b => b }

/-- A module that claims reversible (flag export returns 1) but has no
sb_decode export. -/
def pNoDecode : Plugin :=
  { exports := { allExports with sb_decode := false },
    retBinarySafe := 1, retSelfInverse := 0, retReversible := 1,
    idStr := "nodec", nameStr := "NoDec", descStr := "",
    encodeFn := fun b => b ++ b, decodeFn := fun b => b }

/-- The descriptor the worker builds for pNoDecode. -/
def pNoDecodeInfo : EngineInfo :=
  { id := "nodec", name := "NoDec", desc := "", binarySafe := true,
    selfInverse := false, reversible := true }

/-- C10: in the Descriptor built at load time, each capability flag is
true exactly when the corresponding export returned the i32 value 1
(engine-worker.js lines 47-49 use strict comparison with 1), so any other
return value yields false. -/
theorem capability_flags_iff_one (p : Plugin) (info : EngineInfo)
    (h : (workerLoad p).1 = .ok info) :
    (info.binarySafe = true ↔ p.retBinarySafe = 1) ∧
    (info.selfInverse = true ↔ p.retSelfInverse = 1) ∧
    (info.reversible = true ↔ p.retReversible = 1) := by
  unfold workerLoad at h
  cases hm : missingExport p.exports with
  | some r => rw [hm] at h; simp at h
  | none =>
      rw [hm] at h
      simp only [Except.ok.injEq] at h
      subst h
      refine ⟨?_, ?_, ?_⟩ <;> simp

/-- Witness for capability_flags_iff_one at a module whose binary-safe
export returns 2: the flag comes out false. -/
theorem capability_flags_witness :
    ((flag2Info.binarySafe = true ↔ flag2Plugin.retBinarySafe = 1) ∧
     (flag2Info.selfInverse = true ↔ flag2Plugin.retSelfInverse = 1) ∧
     (flag2Info.reversible = true ↔ flag2Plugin.retReversible = 1)) ∧
    flag2Info.binarySafe = false :=
  ⟨capability_flags_iff_one flag2Plugin flag2Info rfl, rfl⟩

/-- C4: a module missing a required export fails the load with the error
Missing export: r for an r that is indeed absent, the worker runs no
marshaling or metadata step (its trace is only the export check), and the
registry is left exactly as it was. -/
theorem missing_export_fails_load (reg : Registry) (p : Plugin)
    (isPreset : Bool) (wref : Nat)
    (h : ∃ r ∈ requiredList, hasExport p.exports r = false) :
    ∃ r, hasExport p.exports r = false ∧
      (loadWasmEngine reg p isPreset wref).1 =
        .error ("Missing export: " ++ r) ∧
      (workerLoad p).2 = [LoadAct.checkExports] ∧
      (loadWasmEngine reg p isPreset wref).2.1 = reg := by
  have hsome : (missingExport p.exports).isSome := by
    rw [missingExport, List.find?_isSome]
    obtain ⟨r, hr, hx⟩ := h
    exact ⟨r, hr, by simp [hx]⟩
  obtain ⟨r, hm⟩ := Option.isSome_iff_exists.mp hsome
  have hrx : hasExport p.exports r = false := by
    have hp := List.find?_some (by rw [missingExport] at hm; exact hm)
    simpa using hp
  refine ⟨r, hrx, ?_, ?_, ?_⟩ <;>
    simp [loadWasmEngine, workerLoad, hm]

/-- Witness for missing_export_fails_load on a concrete module lacking
sb_encode, against the empty registry. -/
theorem missing_export_witness :
    ∃ r, hasExport pNoEnc.exports r = false ∧
      (loadWasmEngine [] pNoEnc false 0).1 =
        .error ("Missing export: " ++ r) ∧
      (workerLoad pNoEnc).2 = [LoadAct.checkExports] ∧
      (loadWasmEngine [] pNoEnc false 0).2.1 = [] :=
  missing_export_fails_load [] pNoEnc false 0 (by decide)

/-- C3 counterexample: pNoDecode claims reversible (its flag export
returns 1) and has no sb_decode export, yet the load succeeds and the
engine is installed into the registry, against the claim that such a load
fails. -/
theorem load_without_decode_cex :
    pNoDecode.exports.sb_decode = false ∧
    pNoDecode.retReversible = 1 ∧
    (workerLoad pNoDecode).1 = .ok pNoDecodeInfo ∧
    pNoDecodeInfo.reversible = true ∧
    (loadWasmEngine [] pNoDecode false 0).1 = .ok "nodec" ∧
    (loadWasmEngine [] pNoDecode false 0).2.1 =
      [("nodec", mkEngineRec pNoDecodeInfo false 0)] :=
  ⟨rfl, rfl, rfl, rfl, rfl, rfl⟩

/-- C3 amended: the load check consults only the eight-entry required
list, which does not contain sb_decode, so any module with those exports
loads successfully whatever its flags say; a decode request against a
module without sb_decode fails only at call time, with an error message,
after the input buffer and length cell have been allocated. -/
theorem load_ignores_decode_export (p : Plugin)
    (h : missingExport p.exports = none) :
    (∃ info, (workerLoad p).1 = .ok info) ∧
    (∀ chunk isLast ob, ob.a1 ≠ 0 → ob.a2 ≠ 0 →
      p.exports.sb_decode = false →
      (workerOp p OpTy.decode chunk isLast ob).2 =
        [OutMsg.errorMsg decodeMissingMsg]) := by
  constructor
  · simp only [workerLoad, h]
    exact ⟨_, rfl⟩
  · intro chunk isLast ob h1 h2 hd
    simp [workerOp, h1, h2, hd]

/-- Witness for load_ignores_decode_export at pNoDecode with the happy
allocator. -/
theorem load_ignores_decode_witness :
    (∃ info, (workerLoad pNoDecode).1 = .ok info) ∧
    (workerOp pNoDecode OpTy.decode [7] true obHappy).2 =
      [OutMsg.errorMsg decodeMissingMsg] :=
  ⟨(load_ignores_decode_export pNoDecode (by decide)).1,
   (load_ignores_decode_export pNoDecode (by decide)).2 [7] true obHappy
     (by decide) (by decide) rfl⟩

/-- C1: no load ever runs the validateEngine self-test.  validateEngine
(script.js line 415) has no call site: loadWasmEngine registers the engine
straight from the loaded payload, so the validate-action count of every
load trace is zero, although the in-code engine documentation states that
engines are validated on load. -/
theorem loadWasmEngine_no_selftest (reg : Registry) (p : Plugin)
    (isPreset : Bool) (wref : Nat) :
    ((loadWasmEngine reg p isPreset wref).2.2).count
      HostAct.runValidate = 0 := by
  unfold loadWasmEngine
  cases hw : (workerLoad p).1 with
  | error e => simp [List.count_cons, List.count_nil]
  | ok info =>
      cases hl : reg.lookup info.id <;>
        simp [hl, List.count_cons, List.count_nil]

/-- The ABI events an operation causes inside the worker: each posted
operation message is served by the encode/decode branch; a load message
runs no encode/decode ABI call. -/
def opAbiTrace (p : Plugin) (ob : AllocOracle) (posts : List PostedMsg) :
    List AbiEv :=
  (posts.map (fun m =>
    match m with
    | PostedMsg.loadMsg _ => []
    | PostedMsg.opMsg _ ty c l => (workerOp p ty c l ob).1)).flatten

/-- processFile (script.js lines 257-312): look up the engine and throw
Engine not found before any message is posted; otherwise post one message
per 64 KiB chunk, drawing a fresh request id for each, in file order. -/
def processFileRun (st : HostState) (engineId : String) (ty : OpTy)
    (file : Bytes) : Except String Unit × HostState × List PostedMsg :=
  match st.engines.lookup engineId with
  | none => (.error "Engine not found", st, [])
  | some _ =>
      let k := (chunkSeq CHUNK_SIZE file).length
      (.ok (),
       { st with nextRequestId := st.nextRequestId + k },
       (ridChunkSeq CHUNK_SIZE st.nextRequestId file).map
         (fun rc => PostedMsg.opMsg rc.1 ty rc.2.1 rc.2.2))

/-- In a registry with pairwise distinct keys, a key that lookup finds has
exactly one entry. -/
theorem registry_lookup_count (reg : Registry) (engineId : String)
    (old : EngineRec) (hdup : reg.lookup engineId = some old)
    (hkeys : (reg.map Prod.fst).Nodup) :
    reg.countP (fun kv => kv.1 == engineId) = 1 := by
  induction reg with
  | nil => simp [List.lookup] at hdup
  | cons kv t ih =>
      obtain ⟨k, v⟩ := kv
      rw [List.map_cons, List.nodup_cons] at hkeys
      rw [List.countP_cons]
      by_cases hk : k = engineId
      · subst hk
        have hz : t.countP (fun kv => kv.1 == k) = 0 := by
          rw [List.countP_eq_zero]
          intro a ha
          simp only [beq_iff_eq]
          intro hak
          apply hkeys.1
          rw [← hak]
          exact List.mem_map.mpr ⟨a, ha, rfl⟩
        simp [hz]
      · have hb : (engineId == k) = false := by
          rw [beq_eq_false_iff_ne]
          exact Ne.symm hk
        have hl : List.lookup engineId ((k, v) :: t) =
            List.lookup engineId t := by
          simp [List.lookup, hb]
        rw [hl] at hdup
        simpa [hk] using ih hdup hkeys.2

/-- C5: loading an engine whose ID is already registered leaves exactly
one registry entry for that ID; the host trace prints the Overwritten
warning, terminates the old entry's worker, and only then installs the new
engine (positions 3 and 4 of the trace). -/
theorem duplicate_id_single_entry (reg : Registry) (p : Plugin)
    (isPreset : Bool) (wref : Nat) (info : EngineInfo) (old : EngineRec)
    (hload : (workerLoad p).1 = .ok info)
    (hdup : reg.lookup info.id = some old)
    (hkeys : (reg.map Prod.fst).Nodup) :
    ((loadWasmEngine reg p isPreset wref).2.1).countP
        (fun kv => kv.1 == info.id) = 1 ∧
    (loadWasmEngine reg p isPreset wref).2.2 =
      [HostAct.createWorker, HostAct.postLoadMsg,
       HostAct.printWarn ("Overwritten: " ++ info.id),
       HostAct.terminateWorker old.workerRef,
       HostAct.installEngine info.id] ∧
    ((loadWasmEngine reg p isPreset wref).2.2)[3]? =
      some (HostAct.terminateWorker old.workerRef) ∧
    ((loadWasmEngine reg p isPreset wref).2.2)[4]? =
      some (HostAct.installEngine info.id) := by
  have hreg : (loadWasmEngine reg p isPreset wref).2.1 =
      mapSet reg info.id (mkEngineRec info isPreset wref) := by
    simp [loadWasmEngine, hload, hdup]
  have hacts : (loadWasmEngine reg p isPreset wref).2.2 =
      [HostAct.createWorker, HostAct.postLoadMsg,
       HostAct.printWarn ("Overwritten: " ++ info.id),
       HostAct.terminateWorker old.workerRef,
       HostAct.installEngine info.id] := by
    simp [loadWasmEngine, hload, hdup]
  refine ⟨?_, hacts, by rw [hacts]; rfl, by rw [hacts]; rfl⟩
  rw [hreg, mapSet, if_pos (by rw [hdup]; rfl), List.countP_map]
  have hcong : ∀ kv ∈ reg,
      (((fun kv => kv.1 == info.id) ∘
        (fun kv => if kv.1 = info.id then
          (info.id, mkEngineRec info isPreset wref) else kv)) kv = true ↔
      (fun kv : String × EngineRec => kv.1 == info.id) kv = true) := by
    intro kv _
    by_cases hk : kv.1 = info.id <;> simp [hk]
  rw [List.countP_congr hcong]
  exact registry_lookup_count reg info.id old hdup hkeys

/-- The descriptor the worker builds for idEngine. -/
def identInfo : EngineInfo :=
  { id := "ident", name := "Identity", desc := "copies bytes",
    binarySafe := true, selfInverse := false, reversible := true }

/-- A registry already binding the identity engine id to an older entry
whose worker handle is 3. -/
def identReg : Registry := [("ident", mkEngineRec identInfo false 3)]

/-- Witness for duplicate_id_single_entry: reloading the identity engine
over a registry that already binds its id. -/
theorem duplicate_id_witness :
    ((identReg.map Prod.fst).Nodup) ∧
    ((loadWasmEngine identReg idEngine false 9).2.1).countP
      (fun kv => kv.1 == identInfo.id) = 1 ∧
    ((loadWasmEngine identReg idEngine false 9).2.2)[3]? =
      some (HostAct.terminateWorker 3) :=
  ⟨by decide,
   (duplicate_id_single_entry identReg idEngine false 9 identInfo
      (mkEngineRec identInfo false 3) rfl rfl (by decide)).1,
   (duplicate_id_single_entry identReg idEngine false 9 identInfo
      (mkEngineRec identInfo false 3) rfl rfl (by decide)).2.2.1⟩

/-- C8: every exit path of the encode/decode branch frees exactly the
buffers it obtained: the freed pointer/size pairs of the ABI trace equal
the successfully allocated ones whatever the allocator and the transform
do; a zero pointer from the first sb_alloc fails the call with sb_alloc
failed and nothing to free; a zero pointer from the second one frees the
already-obtained input buffer before failing. -/
theorem abi_frees_all_allocations (p : Plugin) (ty : OpTy) (chunk : Bytes)
    (isLast : Bool) (ob : AllocOracle) :
    freedPairs (workerOp p ty chunk isLast ob).1 =
      allocatedPairs (workerOp p ty chunk isLast ob).1 ∧
    (workerOp p ty chunk isLast
        { a1 := 0, a2 := ob.a2, outPtr := ob.outPtr,
          callFault := ob.callFault }).2 =
      [OutMsg.errorMsg "sb_alloc failed"] ∧
    workerOp p ty chunk isLast
        { a1 := ob.a1 + 1, a2 := 0, outPtr := ob.outPtr,
          callFault := ob.callFault } =
      ([AbiEv.allocCall chunk.length (ob.a1 + 1), AbiEv.allocCall 4 0,
        AbiEv.freeCall (ob.a1 + 1) chunk.length],
       [OutMsg.errorMsg "sb_alloc for outLenPtr failed"]) := by
  refine ⟨?_, by simp [workerOp], by simp [workerOp]⟩
  unfold workerOp
  split_ifs with h1 h2 h3 h4 <;>
    simp_all [allocatedPairs, freedPairs]

/-- C9: any single-shot call or chunked operation against an unregistered
engine ID rejects with Engine not found, posts no message to any worker,
leaves the host state (including the request counter) unchanged, and its
ABI trace is empty, so it performs zero allocations. -/
theorem not_found_rejects_without_alloc (st : HostState)
    (engineId : String) (ty : OpTy) (input file : Bytes) (p : Plugin)
    (ob : AllocOracle) (h : st.engines.lookup engineId = none) :
    (callEngine st engineId ty input).1 = .error "Engine not found" ∧
    (callEngine st engineId ty input).2.2 = [] ∧
    (callEngine st engineId ty input).2.1 = st ∧
    opAbiTrace p ob (callEngine st engineId ty input).2.2 = [] ∧
    (processFileRun st engineId ty file).1 = .error "Engine not found" ∧
    (processFileRun st engineId ty file).2.2 = [] ∧
    opAbiTrace p ob (processFileRun st engineId ty file).2.2 = [] := by
  simp [callEngine, processFileRun, opAbiTrace, h]

/-- Witness for not_found_rejects_without_alloc: the empty registry holds
no engine named ghost. -/
theorem not_found_witness :
    (callEngine { engines := [], nextRequestId := 0 } "ghost"
        OpTy.encode [1]).1 = .error "Engine not found" ∧
    (callEngine { engines := [], nextRequestId := 0 } "ghost"
        OpTy.encode [1]).2.2 = [] ∧
    (callEngine { engines := [], nextRequestId := 0 } "ghost"
        OpTy.encode [1]).2.1 = { engines := [], nextRequestId := 0 } ∧
    opAbiTrace idEngine obHappy
      (callEngine { engines := [], nextRequestId := 0 } "ghost"
        OpTy.encode [1]).2.2 = [] ∧
    (processFileRun { engines := [], nextRequestId := 0 } "ghost"
        OpTy.encode [2]).1 = .error "Engine not found" ∧
    (processFileRun { engines := [], nextRequestId := 0 } "ghost"
        OpTy.encode [2]).2.2 = [] ∧
    opAbiTrace idEngine obHappy
      (processFileRun { engines := [], nextRequestId := 0 } "ghost"
        OpTy.encode [2]).2.2 = [] :=
  not_found_rejects_without_alloc _ "ghost" OpTy.encode [1] [2]
    idEngine obHappy rfl

/-- Ids drawn by one operation are sorted increasing, bounded between the
counter before and the counter after, and the counter never decreases. -/
theorem opIssuedIds_spec (st : HostState) (op : HostOp) :
    List.Pairwise (· < ·) (opIssuedIds st op).1 ∧
    (∀ x ∈ (opIssuedIds st op).1,
      st.nextRequestId ≤ x ∧ x < (opIssuedIds st op).2.nextRequestId) ∧
    st.nextRequestId ≤ (opIssuedIds st op).2.nextRequestId := by
  cases op with
  | loadOp p isPreset wref => simp [opIssuedIds]
  | callOp engineId =>
      cases hl : st.engines.lookup engineId <;> simp [opIssuedIds, hl]
  | fileOp engineId file =>
      cases hl : st.engines.lookup engineId with
      | none => simp [opIssuedIds, hl]
      | some r =>
          refine ⟨?_, ?_, ?_⟩
          · simpa [opIssuedIds, hl] using
              List.pairwise_lt_range' st.nextRequestId
                (chunkSeq CHUNK_SIZE file).length
          · intro x hx
            simp only [opIssuedIds, hl, List.mem_range'_1] at hx
            simp only [opIssuedIds, hl]
            omega
          · simp [opIssuedIds, hl]

/-- Every id issued by a run is at least the starting counter, and the
issued list is sorted strictly increasing. -/
theorem runOps_spec (ops : List HostOp) : ∀ st : HostState,
    List.Pairwise (· < ·) (runOps st ops) ∧
    ∀ x ∈ runOps st ops, st.nextRequestId ≤ x := by
  induction ops with
  | nil => intro st; simp [runOps]
  | cons op t ih =>
      intro st
      have hop := opIssuedIds_spec st op
      have hih := ih (opIssuedIds st op).2
      simp only [runOps]
      constructor
      · rw [List.pairwise_append]
        refine ⟨hop.1, hih.1, ?_⟩
        intro x hx y hy
        have hx2 := (hop.2.1 x hx).2
        have hy2 := hih.2 y hy
        have hc := hop.2.2
        omega
      · intro x hx
        rw [List.mem_append] at hx
        cases hx with
        | inl h => exact (hop.2.1 x h).1
        | inr h =>
            have h1 := hih.2 x h
            have h2 := hop.2.2
            omega

/-- C7: across any sequence of host operations (loads, single-shot calls,
chunked file operations), the request ids issued from the shared counter
are strictly increasing in issue order, hence pairwise distinct: no id is
ever reused while another request is pending. -/
theorem request_ids_strictly_increasing (st : HostState)
    (ops : List HostOp) :
    List.Pairwise (· < ·) (runOps st ops) ∧
    List.Pairwise (· ≠ ·) (runOps st ops) :=
  ⟨(runOps_spec ops st).1,
   (runOps_spec ops st).1.imp (fun h => Nat.ne_of_lt h)⟩

/-- A transform that preserves concatenation sends the empty buffer to
the empty buffer. -/
theorem hom_nil {f : Bytes → Bytes}
    (hom : ∀ a b, f (a ++ b) = f a ++ f b) : f [] = [] := by
  have h := hom [] []
  simp only [List.append_nil] at h
  have hl := congrArg List.length h
  rw [List.length_append] at hl
  have : (f []).length = 0 := by omega
  exact List.length_eq_zero.mp this

/-- With a working allocator and a transform that neither traps nor is
missing, the worker posts the transform output as one chunk message (when
the returned pointer and length are nonzero) followed by a result message
when the request is the last chunk. -/
theorem workerOp_happy (p : Plugin) (ty : OpTy) (c : Bytes)
    (isLast : Bool) (ob : AllocOracle) (ha1 : ob.a1 ≠ 0)
    (ha2 : ob.a2 ≠ 0) (hcf : ob.callFault = false)
    (hdec : ty = OpTy.decode → p.exports.sb_decode = true) :
    (workerOp p ty c isLast ob).2 =
      (if ob.outPtr ≠ 0 ∧ (engineFn p ty c).length ≠ 0
       then [OutMsg.chunkMsg (engineFn p ty c)] else [])
        ++ (if isLast then [OutMsg.resultMsg] else []) := by
  have hd : ¬(ty = OpTy.decode ∧ p.exports.sb_decode = false) := by
    rintro ⟨h1, h2⟩
    rw [hdec h1] at h2
    exact absurd h2 (by simp)
  simp [workerOp, ha1, ha2, hcf, hd]

/-- The splitter on the empty buffer yields no chunks at any fuel. -/
theorem chunkSeqAux_nil (fuel sz : Nat) : chunkSeqAux fuel sz [] = [] := by
  cases fuel <;> rfl

/-- Settling the concatenated worker responses of the chunked pipeline
appends the transform of the whole remaining file to the accumulated
output, for a concatenation-preserving transform, positive chunk size, a
working allocator and a nonempty file. -/
theorem settle_chunkSeqAux (p : Plugin) (ob : AllocOracle) (ty : OpTy)
    (sz : Nat) (hsz : 0 < sz) (ha1 : ob.a1 ≠ 0) (ha2 : ob.a2 ≠ 0)
    (hop : ob.outPtr ≠ 0) (hcf : ob.callFault = false)
    (hdec : ty = OpTy.decode → p.exports.sb_decode = true)
    (hom : ∀ a b, engineFn p ty (a ++ b) =
      engineFn p ty a ++ engineFn p ty b) :
    ∀ fuel file acc, file.length ≤ fuel → file ≠ [] →
      settle (((chunkSeqAux fuel sz file).map
        (fun cl => (workerOp p ty cl.1 cl.2 ob).2)).flatten) acc =
        some (.ok (acc ++ engineFn p ty file)) := by
  intro fuel
  induction fuel with
  | zero =>
      intro file acc hlen hne
      cases file with
      | nil => exact absurd rfl hne
      | cons a t => simp at hlen
  | succ n ih =>
      intro file acc hlen hne
      cases file with
      | nil => exact absurd rfl hne
      | cons a t =>
          have hstep : chunkSeqAux (n + 1) sz (a :: t) =
              ((a :: t).take sz, decide ((a :: t).length ≤ sz))
                :: chunkSeqAux n sz (t.drop (sz - 1)) := rfl
          have hdrop : (a :: t).drop sz = t.drop (sz - 1) := by
            rw [show sz = (sz - 1) + 1 by omega]
            exact List.drop_succ_cons
          by_cases hle : (a :: t).length ≤ sz
          · have hrest : t.drop (sz - 1) = [] := by
              apply List.drop_eq_nil_of_le
              simp at hle ⊢
              omega
            have htake : (a :: t).take sz = a :: t :=
              List.take_of_length_le hle
            rw [hstep, hrest, chunkSeqAux_nil, List.map_cons, List.map_nil,
              List.flatten_cons, List.flatten_nil, List.append_nil,
              workerOp_happy p ty _ _ ob ha1 ha2 hcf hdec, htake,
              decide_eq_true hle]
            by_cases hz : (engineFn p ty (a :: t)).length = 0
            · rw [List.length_eq_zero] at hz
              simp [hz, settle]
            · rw [if_pos ⟨hop, hz⟩]
              simp [settle]
          · have hlast : decide ((a :: t).length ≤ sz) = false := by
              rw [decide_eq_false_iff_not]
              exact hle
            have hlt : sz < (a :: t).length := by
              simp only [List.length_cons] at hle ⊢
              omega
            have hrlen : (t.drop (sz - 1)).length =
                (a :: t).length - sz := by
              rw [List.length_drop]
              simp only [List.length_cons]
              omega
            have hrne : t.drop (sz - 1) ≠ [] := by
              apply List.ne_nil_of_length_pos
              rw [hrlen]
              omega
            have hrfuel : (t.drop (sz - 1)).length ≤ n := by
              rw [hrlen]
              simp only [List.length_cons] at hlen ⊢
              omega
            have hsplit : engineFn p ty (a :: t) =
                engineFn p ty ((a :: t).take sz)
                  ++ engineFn p ty (t.drop (sz - 1)) := by
              rw [← hdrop, ← hom, List.take_append_drop]
            rw [hstep, List.map_cons, List.flatten_cons,
              workerOp_happy p ty _ _ ob ha1 ha2 hcf hdec, hlast]
            by_cases hz : (engineFn p ty ((a :: t).take sz)).length = 0
            · rw [List.length_eq_zero] at hz
              have hgoal := ih (t.drop (sz - 1)) acc hrfuel hrne
              rw [hsplit, hz, List.nil_append]
              simpa [hz] using hgoal
            · have hgoal := ih (t.drop (sz - 1))
                (acc ++ engineFn p ty ((a :: t).take sz)) hrfuel hrne
              rw [if_pos ⟨hop, hz⟩, hsplit]
              simpa [settle, List.append_assoc] using hgoal

/-- A single-shot call through a working allocator and transform resolves
with the transform of the whole input. -/
theorem singleShot_happy (p : Plugin) (ob : AllocOracle) (ty : OpTy)
    (file : Bytes) (ha1 : ob.a1 ≠ 0) (ha2 : ob.a2 ≠ 0)
    (hop : ob.outPtr ≠ 0) (hcf : ob.callFault = false)
    (hdec : ty = OpTy.decode → p.exports.sb_decode = true) :
    singleShotResult p ob ty file = some (.ok (engineFn p ty file)) := by
  rw [singleShotResult, workerOp_happy p ty _ _ ob ha1 ha2 hcf hdec]
  by_cases hz : (engineFn p ty file).length = 0
  · rw [List.length_eq_zero] at hz
    simp [hz, settle]
  · rw [if_pos ⟨hop, hz⟩]
    simp [settle]

/-- C6: for an engine whose transform preserves concatenation, the
chunked pipeline resolves with the same bytes as the single-shot call over
the same input, for every chunk size at least 1 and every nonempty input
(chunk count at least 1): both produce the transform of the whole file. -/
theorem chunked_eq_single_shot (p : Plugin) (ob : AllocOracle) (ty : OpTy)
    (sz : Nat) (file : Bytes) (hsz : 0 < sz) (hne : file ≠ [])
    (ha1 : ob.a1 ≠ 0) (ha2 : ob.a2 ≠ 0) (hop : ob.outPtr ≠ 0)
    (hcf : ob.callFault = false)
    (hdec : ty = OpTy.decode → p.exports.sb_decode = true)
    (hom : ∀ a b, engineFn p ty (a ++ b) =
      engineFn p ty a ++ engineFn p ty b) :
    pipelineResult p ob ty sz file = singleShotResult p ob ty file ∧
    pipelineResult p ob ty sz file =
      some (.ok (engineFn p ty file)) := by
  have hp : pipelineResult p ob ty sz file =
      some (.ok (engineFn p ty file)) := by
    rw [pipelineResult, pipelineMsgs, chunkSeq]
    have := settle_chunkSeqAux p ob ty sz hsz ha1 ha2 hop hcf hdec hom
      file.length file [] (le_refl _) hne
    simpa using this
  exact ⟨by rw [hp, singleShot_happy p ob ty file ha1 ha2 hop hcf hdec],
    hp⟩

/-- Witness for chunked_eq_single_shot: the identity engine over the file
1,2,3 split into chunks of two bytes. -/
theorem chunked_eq_single_shot_witness :
    pipelineResult idEngine obHappy OpTy.encode 2 [1, 2, 3] =
      singleShotResult idEngine obHappy OpTy.encode [1, 2, 3] ∧
    pipelineResult idEngine obHappy OpTy.encode 2 [1, 2, 3] =
      some (.ok [1, 2, 3]) :=
  chunked_eq_single_shot idEngine obHappy OpTy.encode 2 [1, 2, 3]
    (by decide) (by decide) (by decide) (by decide) (by decide) rfl
    (fun h => nomatch h) (fun a b => rfl)

/-- A file longer than one chunk splits into at least two chunks, the
first of which is the size-sz slice tagged not-last. -/
theorem chunkSeq_two (sz : Nat) (file : Bytes) (hsz : 0 < sz)
    (hbig : sz < file.length) :
    ∃ c1 cs, chunkSeq sz file = (file.take sz, false) :: c1 :: cs := by
  cases file with
  | nil => simp at hbig
  | cons a t =>
      have hle : ¬(a :: t).length ≤ sz := by omega
      have hlast : decide ((a :: t).length ≤ sz) = false := by
        rw [decide_eq_false_iff_not]
        exact hle
      have hrlen : (t.drop (sz - 1)).length = (a :: t).length - sz := by
        rw [List.length_drop]
        simp only [List.length_cons]
        omega
      have hfuel1 : 1 ≤ t.length := by
        have hb2 := hbig
        simp only [List.length_cons] at hb2
        omega
      have hstep : chunkSeq sz (a :: t) =
          ((a :: t).take sz, decide ((a :: t).length ≤ sz))
            :: chunkSeqAux t.length sz (t.drop (sz - 1)) := rfl
      obtain ⟨f, hf⟩ : ∃ f, t.length = f + 1 :=
        ⟨t.length - 1, by omega⟩
      obtain ⟨b, u, hbu⟩ : ∃ b u, t.drop (sz - 1) = b :: u := by
        cases hd : t.drop (sz - 1) with
        | nil =>
            exfalso
            rw [hd] at hrlen
            simp only [List.length_nil, List.length_cons] at hrlen
            have hb2 := hbig
            simp only [List.length_cons] at hb2
            omega
        | cons b u => exact ⟨b, u, rfl⟩
      refine ⟨((b :: u).take sz, decide ((b :: u).length ≤ sz)),
        chunkSeqAux f sz (u.drop (sz - 1)), ?_⟩
      rw [hstep, hlast, hf, hbu]
      rfl

/-- C2 amended: the host of a chunked operation does not wait between
chunks.  On the admissible schedule where the file reader outruns the
worker, the second chunk is posted with no terminal for the first chunk
in between (the wait discipline evaluates to false); moreover the worker
response to any chunk not tagged last contains no terminal at all when
the call goes through, so no schedule could put one there. -/
theorem processFile_no_wait_between_chunks (p : Plugin)
    (ob : AllocOracle) (ty : OpTy) (sz rid0 : Nat) (file : Bytes)
    (hsz : 0 < sz) (hbig : sz < file.length) (ha1 : ob.a1 ≠ 0)
    (ha2 : ob.a2 ≠ 0) (hcf : ob.callFault = false)
    (hdec : ty = OpTy.decode → p.exports.sb_decode = true) :
    hostWaitsForTerminals (readerFirstTrace p ob ty sz rid0 file) =
      false ∧
    ∀ c, ((workerOp p ty c false ob).2).countP isTerminalMsg = 0 := by
  constructor
  · obtain ⟨c1, cs, hcs⟩ := chunkSeq_two sz file hsz hbig
    rw [readerFirstTrace, ridChunkSeq, hcs]
    simp only [List.length_cons, List.range'_succ, List.zip_cons_cons,
      List.map_cons, List.cons_append]
    simp [hostWaitsForTerminals, waitsAux]
  · intro c
    rw [workerOp_happy p ty c false ob ha1 ha2 hcf hdec]
    by_cases h : ob.outPtr ≠ 0 ∧ (engineFn p ty c).length ≠ 0
    · rw [if_pos h]
      simp [List.countP_cons, List.countP_nil, isTerminalMsg]
    · rw [if_neg h]
      simp [List.countP_nil]

/-- C2 counterexample: with the identity engine, chunk size 2 and the
three-byte file 1,2,3, the reader-first schedule yields this concrete
timeline: both chunks are posted before any worker message, the first
chunk never receives a terminal at all, and the claimed wait discipline
is violated. -/
theorem processFile_pipelining_cex :
    readerFirstTrace idEngine obHappy OpTy.encode 2 0 [1, 2, 3] =
      [SysEv.post 0 false, SysEv.post 1 true,
       SysEv.chunkOut 0 [1, 2], SysEv.chunkOut 1 [3],
       SysEv.resultOut 1] ∧
    hostWaitsForTerminals
      (readerFirstTrace idEngine obHappy OpTy.encode 2 0 [1, 2, 3]) =
      false := by
  exact ⟨by decide, by decide⟩

/-- Witness for processFile_no_wait_between_chunks: a four-byte file in
two-byte chunks through the identity engine, starting at request id 5. -/
theorem processFile_no_wait_witness :
    hostWaitsForTerminals
      (readerFirstTrace idEngine obHappy OpTy.encode 2 5 [4, 5, 6, 7]) =
      false ∧
    ((workerOp idEngine OpTy.encode [9] false obHappy).2).countP
      isTerminalMsg = 0 :=
  ⟨(processFile_no_wait_between_chunks idEngine obHappy OpTy.encode 2 5
      [4, 5, 6, 7] (by decide) (by decide) (by decide) (by decide) rfl
      (fun h => nomatch h)).1,
   (processFile_no_wait_between_chunks idEngine obHappy OpTy.encode 2 5
      [4, 5, 6, 7] (by decide) (by decide) (by decide) (by decide) rfl
      (fun h => nomatch h)).2 [9]⟩

end StarBrick
